import Mathlib

/-!
# crypto_tx: the transmit loop of crypto_transceiver

A shallow embedding of `src/crypto_tx.c`: the `rms` helper, the two hook
runners `try_system` / `try_system_async`, the startup pass of `main`, the
voice-activity (VOX) block executed for every frame, and the configuration
reload pass.  Buffers are lists of bytes, C integers are `Int`/`Nat` with the
wrap-around written out where the C type makes it matter, and every call that
leaves the program (hooks, log lines, reads from the random source, the calls
into the codec) is recorded as an `Event` in a trace.
-/

namespace CryptoTx

/-! ## `rms` (lines 38-51) -/

/-- Conversion of an integer value to C `short`, written as the two's
complement wrap to `[-32768, 32767]`; it is the identity on that range. -/
def toShort (x : Int) : Int := (x + 32768) % 65536 - 32768

/-- Value of an `int` expression (32 bits) whose mathematical value is `x`: the
two's complement wrap to `[-2147483648, 2147483647]`, the identity on that
range. -/
def toCInt (x : Int) : Int := (x + 2147483648) % 4294967296 - 2147483648

/-- The `for` loop of `rms`: `total += val * val` for `i = 0 .. len - 1`, with
`val = vals[i]` widened to 64 bits.  The accumulator is kept as an exact
integer, which is what the 64-bit accumulator holds as long as it stays
below `2^63`. -/
def rmsTotal (vals : List Int) (len : Nat) : Int :=
  (List.range len).foldl (fun total i => total + vals.getD i 0 * vals.getD i 0) 0

/-- `static short rms(short vals[], int len)`.  `total / len` is the C
(truncating) integer division; `sqrt` is applied to a non-negative integer
below `2^53`, which a double holds exactly, the correctly rounded root of such
an integer truncates to the integer square root, so `(short)sqrt(..)` is
`toShort` of `Nat.sqrt`. -/
def rms (vals : List Int) (len : Int) : Int :=
  if len > 0 then
    toShort (Int.ofNat (Nat.sqrt (Int.toNat (Int.tdiv (rmsTotal vals len.toNat) len))))
  else
    0

/-- The sum of the squared samples of a frame, as the specification words it. -/
def sumSquares (vals : List Int) : Int := (vals.map (fun v => v * v)).sum

/-- A sample is a C `short`. -/
def IsShort (v : Int) : Prop := -32768 ≤ v ∧ v ≤ 32767

instance (v : Int) : Decidable (IsShort v) := by unfold IsShort; infer_instance

/-! ## Data model of `main` -/

/-- A byte of a key or IV buffer (`unsigned char`). -/
abbrev Byte := Nat

/-- Modelled from the spec: `FREEDV_MASTER_KEY_LENGTH` of freedv_api.h, which is
not among the sources; the required key length is 32 bytes. -/
def FREEDV_MASTER_KEY_LENGTH : Nat := 32

/-- Size of the `iv` buffer of `main`: `unsigned char iv[16]`. -/
def IV_SIZE : Nat := 16

/-- Modelled from the spec: the fields of `struct config` (crypto_cfg.h, not
among the sources) that `main` reads.  The four VOX fields are C `int`s and hold
values of that type; the arithmetic `main` does on them is written out in
`vox_step`. -/
structure Config where
  log_file : String
  log_level : Int
  vox_low : Int
  vox_high : Int
  vox_period : Int
  silent_period : Int
  ready_cmd : String
  error_cmd : String
  vox_cmd : String
  deriving DecidableEq, Repr

/-- The three notification hooks: which command field of the configuration a
call of `try_system` / `try_system_async` was given. -/
inductive Hook where
  | ready
  | error
  | vox
  deriving DecidableEq, Repr

/-- Severities passed to `log_message`. -/
inductive LogLevel where
  | LOG_ERROR
  | LOG_WARN
  | LOG_NOTICE
  | LOG_INFO
  | LOG_DEBUG
  deriving DecidableEq, Repr

/-- What `main` does to the outside world, in program order. -/
inductive Event where
  /-- `log_message(logger, level, fmt, ...)`, recorded with its format string. -/
  | log (level : LogLevel) (fmt : String)
  /-- a call `try_system(cmd)` with the command of hook `h`. -/
  | call_try_system (h : Hook) (cmd : String)
  /-- a call `try_system_async(cmd)` with the command of hook `h`. -/
  | call_try_system_async (h : Hook) (cmd : String)
  /-- `system(cmd)` inside `try_system`. -/
  | system (cmd : String)
  /-- `wait(&stat)` inside `try_system_async`. -/
  | wait
  /-- `fork()` followed in the child by `execl("/bin/sh", "/bin/sh", "-c", cmd, NULL)`. -/
  | fork_exec (cmd : String)
  /-- `create_logger(cur->log_file, cur->log_level)`. -/
  | create_logger (log_file : String)
  /-- `destroy_logger(logger)`. -/
  | destroy_logger
  /-- an `fread` on the random stream into `iv`; `delivered` bytes arrived. -/
  | read_iv (delivered : Nat)
  /-- `memset(key, 0, sizeof(key))`. -/
  | zero_key
  /-- `read_key_file(cur->key_file, key)` returning `delivered`. -/
  | read_key (delivered : Nat)
  /-- `freedv_open(FREEDV_MODE_2400B)`. -/
  | freedv_open
  /-- `freedv_set_crypto(freedv, key, iv)`; `key = none` is the NULL key. -/
  | set_crypto (key : Option (List Byte)) (iv : List Byte)
  /-- `freedv_tx(freedv, mod_out, speech_in)`. -/
  | freedv_tx
  /-- `fwrite(mod_out, sizeof(short), n_nom_modem_samples, fout)`. -/
  | fwrite
  /-- `freedv_close` and the three `fclose` calls at the end of `main`. -/
  | close_all
  deriving DecidableEq, Repr

/-- How far the process got. -/
inductive Status where
  /-- still inside (or about to enter) the main loop. -/
  | running
  /-- `exit(code)` or `return code` from `main`. -/
  | exited (code : Nat)
  /-- the `assert(freedv != NULL)` failed. -/
  | aborted
  deriving DecidableEq, Repr

/-- The variables of `main` that persist from frame to frame, with the crypto
material currently held by the codec handle and the bytes the random stream
has left to give. -/
structure State where
  /-- `cur`. -/
  cur : Config
  /-- `old` (NULL before the first reload). -/
  old : Option Config
  /-- `key[FREEDV_MASTER_KEY_LENGTH]`. -/
  key : List Byte
  /-- `iv[16]`. -/
  iv : List Byte
  /-- `unsigned short silent_frames`. -/
  silent_frames : Nat
  /-- the key the codec handle is bound to. -/
  bound_key : List Byte
  /-- the IV the codec handle is bound to. -/
  bound_iv : List Byte
  /-- the bytes still to come from `urandom`. -/
  urandom : List Byte
  deriving DecidableEq, Repr

/-- Result of a piece of `main`: the state, what was done, and whether the
process is still running. -/
structure Outcome where
  status : Status
  state : State
  trace : List Event
  deriving DecidableEq, Repr

/-- What a startup or reload pass finds outside the program: the configuration
`read_config` yields, whether `open_input_file` and `open_output_file` leave a
stream, the random stream `open_iv_file` leaves (`none` for NULL), and the
bytes the key file has to give. -/
structure PassEnv where
  cfg : Config
  fin_ok : Bool
  fout_ok : Bool
  urandom : Option (List Byte)
  key_src : List Byte
  deriving DecidableEq, Repr

/-! ## Library and helper calls -/

/-- `fread` of `n` bytes into `buf` (both `fread(buf, 1, n, f)` and
`fread(buf, n, 1, f)` move bytes the same way): the stream hands over its next
`n` bytes, or all it has left when fewer remain; they overwrite the start of
`buf` and the rest of `buf` keeps its content.  Returns the buffer, the stream
that remains, and the number of bytes delivered. -/
def fread_bytes (buf : List Byte) (n : Nat) (stream : List Byte) :
    List Byte × List Byte × Nat :=
  let got := stream.take n
  (got ++ buf.drop got.length, stream.drop n, got.length)

/-- Modelled from the spec: `read_key_file` of crypto_cfg, which is not among
the sources.  The key source yields up to `FREEDV_MASTER_KEY_LENGTH` bytes into
the start of `key`; the function returns how many it yielded and leaves the
rest of `key` alone. -/
def read_key_file (key_src : List Byte) (key : List Byte) : List Byte × Nat :=
  let got := key_src.take FREEDV_MASTER_KEY_LENGTH
  (got ++ key.drop got.length, got.length)

/-- Modelled from the spec: `freedv_set_crypto` of the codec library, which is
not among the sources.  With a NULL key only the IV of the handle is replaced,
with a key both are. -/
def freedv_set_crypto (st : State) (key : Option (List Byte)) (iv : List Byte) : State :=
  { st with bound_key := key.getD st.bound_key, bound_iv := iv }

/-- `int try_system(const char* cmd)` (lines 72-79), called with the command of
hook `h`: `system(cmd)` runs when the command is not empty (a NULL command
behaves as the empty one, so commands are plain strings).  No caller uses the
returned status. -/
def try_system (h : Hook) (cmd : String) : List Event :=
  Event.call_try_system h cmd :: (if cmd ≠ "" then [Event.system cmd] else [])

/-- `void try_system_async(const char* cmd)` (lines 61-70), called with the
command of hook `h`: one `wait`, then, when the command is not empty, a child
that runs it. -/
def try_system_async (h : Hook) (cmd : String) : List Event :=
  Event.call_try_system_async h cmd :: Event.wait ::
    (if cmd ≠ "" then [Event.fork_exec cmd] else [])

/-! ## The VOX block (lines 165-207) -/

/-- What the VOX decision of one frame comes to. -/
structure VoxResult where
  /-- `silent_frames` after the frame. -/
  silent_frames : Nat
  /-- the branch of line 171 was taken ("Speech detected"). -/
  speech_detected : Bool
  /-- the branch of line 177 was taken: the frame was counted as silent. -/
  counted : Bool
  /-- `reset_iv = 1` at line 184 (end of speech). -/
  end_of_speech : Bool
  /-- `reset_iv = 1` at line 191 (prolonged silence). -/
  periodic : Bool
  deriving DecidableEq, Repr

/-- `reset_iv` at line 195. -/
def VoxResult.reset_iv (r : VoxResult) : Bool := r.end_of_speech || r.periodic

/-- Lines 165-193 without the log lines: the decision taken for a frame whose
RMS is `rms_val` when the counter holds `silent_frames`.  `++silent_frames` is
on an `unsigned short`, hence the reduction modulo `65536`; the products
`25 * cur->vox_period` and `25 * cur->silent_period` are `int` products, hence
`toCInt`; the counter is promoted to `int` for `==` and `%`, and `%` is the C
remainder. -/
def vox_step (cfg : Config) (rms_val : Int) (silent_frames : Nat) : VoxResult :=
  if cfg.vox_low > 0 ∧ cfg.vox_high > 0 then
    if rms_val > cfg.vox_high ∧ silent_frames > 0 then
      { silent_frames := 0, speech_detected := true, counted := false,
        end_of_speech := false, periodic := false }
    else if rms_val < cfg.vox_low ∨ silent_frames > 0 then
      let n := (silent_frames + 1) % 65536
      { silent_frames := n, speech_detected := false, counted := true,
        end_of_speech := decide (cfg.vox_period > 0 ∧
          (n : Int) = toCInt (25 * cfg.vox_period)),
        periodic := decide (cfg.silent_period > 0 ∧
          Int.tmod (n : Int) (toCInt (25 * cfg.silent_period)) = 0) }
    else
      { silent_frames := silent_frames, speech_detected := false, counted := false,
        end_of_speech := false, periodic := false }
  else
    { silent_frames := silent_frames, speech_detected := false, counted := false,
      end_of_speech := false, periodic := false }

/-- The log lines of lines 167-192 for a decision `r`. -/
def vox_log (cfg : Config) (r : VoxResult) : List Event :=
  if cfg.vox_low > 0 ∧ cfg.vox_high > 0 then
    [Event.log .LOG_DEBUG "RMS: %d"] ++
    (if r.speech_detected then [Event.log .LOG_INFO "Speech detected. RMS: %d"] else []) ++
    (if r.counted then [Event.log .LOG_DEBUG "Silent frame. Count: %d"] else []) ++
    (if r.end_of_speech then
      [Event.log .LOG_INFO "New initialization vector at end of speech. RMS: %d"] else []) ++
    (if r.periodic then
      [Event.log .LOG_INFO "New initialization vector from prolonged silence. RMS: %d"]
     else [])
  else []

/-- Lines 195-206: the rotation performed when `reset_iv` is set.  One `fread`
of `sizeof(iv)` bytes from `urandom`, `freedv_set_crypto(freedv, NULL, iv)`,
then the error hook when the read was short and the vox hook otherwise. -/
def rotate_iv (st : State) : State × List Event :=
  let (iv, rest, got) := fread_bytes st.iv IV_SIZE st.urandom
  let iv_err : Bool := decide (got ≠ IV_SIZE)
  let st1 := freedv_set_crypto { st with iv := iv, urandom := rest } none iv
  (st1,
    [Event.read_iv got, Event.set_crypto none iv] ++
    (if iv_err then
      try_system_async .error st.cur.error_cmd ++
        [Event.log .LOG_WARN "Did not fully read initialization vector"]
     else try_system_async .vox st.cur.vox_cmd))

/-- Lines 165-207 for a frame whose RMS is `rms_val`. -/
def main_vox (st : State) (rms_val : Int) : State × List Event :=
  let r := vox_step st.cur rms_val st.silent_frames
  let st1 := { st with silent_frames := r.silent_frames }
  if r.reset_iv then
    ((rotate_iv st1).1, vox_log st.cur r ++ (rotate_iv st1).2)
  else
    (st1, vox_log st.cur r)

/-- Lines 165-210: the body of the loop up to the write, for the frame
`speech_in` just read (`n_speech_samples` is its length): the VOX block on
`rms(speech_in, n_speech_samples)`, then `freedv_tx` and `fwrite`. -/
def main_frame (st : State) (speech_in : List Int) : State × List Event :=
  let r := main_vox st (rms speech_in speech_in.length)
  (r.1, r.2 ++ [Event.freedv_tx, Event.fwrite])

/-! ## Startup and reload passes -/

/-- Lines 107-126 and 230-249: the three streams are opened in turn and the
first one that is NULL afterwards is fatal: error log, `try_system(error_cmd)`,
`exit(1)`.  Returns the trace and the random stream when all three are there. -/
def open_streams (env : PassEnv) : List Event × Option (List Byte) :=
  if env.fin_ok = false then
    (Event.log .LOG_ERROR "Could not open input stream: %s" ::
      try_system .error env.cfg.error_cmd, none)
  else if env.fout_ok = false then
    (Event.log .LOG_ERROR "Could not open output stream: %s" ::
      try_system .error env.cfg.error_cmd, none)
  else
    match env.urandom with
    | none =>
      (Event.log .LOG_ERROR "Unable to open random number generator: %s" ::
        try_system .error env.cfg.error_cmd, none)
    | some stream => ([], some stream)

/-- Lines 95-160: `main` up to the loop.  `iv0` is what the uninitialised `iv`
buffer happens to hold, `freedv` tells whether `freedv_open` returned a
handle. -/
def main_startup (argc : Nat) (env : PassEnv) (iv0 : List Byte) (freedv : Bool) : Outcome :=
  let st0 : State :=
    { cur := env.cfg, old := none, key := List.replicate FREEDV_MASTER_KEY_LENGTH 0,
      iv := iv0, silent_frames := 0, bound_key := [], bound_iv := [], urandom := [] }
  if argc < 2 then
    { status := .exited 1, state := st0, trace := [] }
  else
    let tr0 := [Event.create_logger env.cfg.log_file]
    match open_streams env with
    | (tr1, none) => { status := .exited 1, state := st0, trace := tr0 ++ tr1 }
    | (tr1, some stream) =>
      let (iv, rest, got) := fread_bytes st0.iv IV_SIZE stream
      let warn_iv : Bool := decide (got ≠ IV_SIZE)
      let (key, key_bytes_read) := read_key_file env.key_src st0.key
      let warn_key : Bool := decide (key_bytes_read ≠ FREEDV_MASTER_KEY_LENGTH)
      let has_crypto_warn : Bool := warn_iv || warn_key
      let st1 := { st0 with iv := iv, key := key, urandom := rest }
      let tr2 := tr0 ++ tr1 ++ [Event.read_iv got] ++
        (if warn_iv then
          [Event.log .LOG_WARN "Did not fully read initialization vector"] else []) ++
        [Event.read_key key_bytes_read] ++
        (if warn_key then
          [Event.log .LOG_WARN "Truncated key: Only %d bytes instead of %d"] else []) ++
        (if has_crypto_warn then try_system .error env.cfg.error_cmd else []) ++
        [Event.freedv_open]
      if freedv then
        { status := .running, state := freedv_set_crypto st1 (some key) iv,
          trace := tr2 ++ [Event.set_crypto (some key) iv] ++
            try_system .ready env.cfg.ready_cmd }
      else
        { status := .aborted, state := st1, trace := tr2 }

/-- Lines 212-273: the reload pass run after a frame was written when
`reload_config` is set. -/
def main_reload (st : State) (env : PassEnv) : Outcome :=
  let st0 := { st with old := some st.cur, cur := env.cfg }
  let tr0 := [Event.log .LOG_NOTICE "Reloading config"] ++
    (if st.cur.log_file ≠ env.cfg.log_file then
      [Event.destroy_logger, Event.create_logger env.cfg.log_file] else [])
  match open_streams env with
  | (tr1, none) => { status := .exited 1, state := st0, trace := tr0 ++ tr1 }
  | (tr1, some stream) =>
    let (iv, rest, got) := fread_bytes st0.iv IV_SIZE stream
    let warn_iv : Bool := decide (got ≠ IV_SIZE)
    let zeroed := List.replicate FREEDV_MASTER_KEY_LENGTH 0
    let (key, key_bytes_read) := read_key_file env.key_src zeroed
    let warn_key : Bool := decide (key_bytes_read ≠ FREEDV_MASTER_KEY_LENGTH)
    let has_crypto_warn : Bool := warn_iv || warn_key
    let st1 := { st0 with iv := iv, key := key, urandom := rest }
    { status := .running, state := freedv_set_crypto st1 (some key) iv,
      trace := tr0 ++ tr1 ++ [Event.read_iv got] ++
        (if warn_iv then
          [Event.log .LOG_WARN "Did not fully read initialization vector"] else []) ++
        [Event.zero_key, Event.read_key key_bytes_read] ++
        (if warn_key then
          [Event.log .LOG_WARN "Truncated key: Only %d bytes instead of %d"] else []) ++
        (if has_crypto_warn then try_system_async .error env.cfg.error_cmd else []) ++
        [Event.set_crypto (some key) iv] }

/-- One pass through the loop body for a frame that was read in full:
`main_frame`, then the reload pass when `reload_config` was set (`reload` then
holds what that pass finds). -/
def main_iteration (st : State) (speech_in : List Int) (reload : Option PassEnv) : Outcome :=
  let (st1, tr) := main_frame st speech_in
  match reload with
  | none => { status := .running, state := st1, trace := tr }
  | some env =>
    let o := main_reload st1 env
    { o with trace := tr ++ o.trace }

/-- The `while` loop of lines 164-274 over the frames the input delivers in
full, followed by lines 276-284 once the input is exhausted. -/
def main_loop (st : State) : List (List Int × Option PassEnv) → Outcome
  | [] => { status := .exited 0, state := st, trace := [Event.close_all] }
  | (speech_in, reload) :: rest =>
    let o := main_iteration st speech_in reload
    match o.status with
    | .running =>
      let o2 := main_loop o.state rest
      { o2 with trace := o.trace ++ o2.trace }
    | _ => o

/-! ## Observations on traces -/

/-- The hook an event requests, if it is a call of one of the two runners. -/
def Event.hook? : Event → Option Hook
  | .call_try_system h _ => some h
  | .call_try_system_async h _ => some h
  | _ => none

/-- The hooks requested along a trace, in order. -/
def hooks (tr : List Event) : List Hook := tr.filterMap Event.hook?

/-- Number of reads from the random stream along a trace. -/
def iv_reads (tr : List Event) : Nat :=
  tr.countP (fun e => match e with | .read_iv _ => true | _ => false)

/-- The `freedv_set_crypto` calls along a trace, as (key, IV) pairs. -/
def set_cryptos (tr : List Event) : List (Option (List Byte) × List Byte) :=
  tr.filterMap (fun e => match e with | .set_crypto k iv => some (k, iv) | _ => none)

/-- Whether the key buffer is touched along a trace (zeroed or read into). -/
def key_touched (tr : List Event) : Bool :=
  tr.any (fun e => match e with | .zero_key => true | .read_key _ => true | _ => false)

/-- The counter after the VOX block has seen the RMS values `rmss`, starting
from `silent_frames`, under one configuration. -/
def vox_counter (cfg : Config) (silent_frames : Nat) (rmss : List Int) : Nat :=
  rmss.foldl (fun c r => (vox_step cfg r c).silent_frames) silent_frames

/-- The VOX decision on frame `k` (counted from 0) of the sequence `rmss`, the
counter having started at 0. -/
def vox_at (cfg : Config) (rmss : List Int) (k : Nat) : VoxResult :=
  vox_step cfg (rmss.getD k 0) (vox_counter cfg 0 (rmss.take k))

/-! ## Sample inputs -/

/-- A configuration with VOX enabled (`vox_low = 100`, `vox_high = 200`), the
end-of-speech rotation after `vox_period = 2` seconds and no periodic rotation. -/
def cfg_end_of_speech : Config :=
  { log_file := "tx.log", log_level := 3, vox_low := 100, vox_high := 200, vox_period := 2,
    silent_period := 0, ready_cmd := "", error_cmd := "led error", vox_cmd := "led vox" }

/-- A configuration with VOX enabled, no end-of-speech rotation and the
periodic rotation every `silent_period = 60` seconds. -/
def cfg_periodic : Config :=
  { log_file := "tx.log", log_level := 3, vox_low := 100, vox_high := 200, vox_period := 0,
    silent_period := 60, ready_cmd := "", error_cmd := "led error", vox_cmd := "led vox" }

/-- `n` frames of digital silence, as RMS values. -/
def silence (n : Nat) : List Int := List.replicate n 0

/-- A state of the loop in which the counter stands at 49 under
`cfg_end_of_speech`, so that the next silent frame triggers a rotation; the
random stream has 40 bytes left. -/
def st_before_rotation : State :=
  { cur := cfg_end_of_speech, old := none, key := List.replicate 32 7,
    iv := List.replicate 16 9, silent_frames := 49, bound_key := List.replicate 32 7,
    bound_iv := List.replicate 16 9, urandom := List.range 40 }

/-- A pass in which the three streams open, the random stream delivers only
4 bytes and the key file only 16. -/
def env_short_reads : PassEnv :=
  { cfg := cfg_end_of_speech, fin_ok := true, fout_ok := true,
    urandom := some [1, 2, 3, 4], key_src := List.range 16 }

/-- A pass in which the destination stream cannot be opened. -/
def env_no_output : PassEnv :=
  { cfg := cfg_end_of_speech, fin_ok := true, fout_ok := false,
    urandom := some (List.range 40), key_src := List.range 32 }

/-- A running state whose IV buffer holds sixteen bytes `0xAA`. -/
def st_iv_aa : State :=
  { cur := cfg_periodic, old := none, key := List.replicate 32 7,
    iv := List.replicate 16 170, silent_frames := 0, bound_key := List.replicate 32 7,
    bound_iv := List.replicate 16 170, urandom := [] }

/-- The same state with an IV buffer of sixteen bytes `0x55`. -/
def st_iv_55 : State :=
  { cur := cfg_periodic, old := none, key := List.replicate 32 7,
    iv := List.replicate 16 85, silent_frames := 0, bound_key := List.replicate 32 7,
    bound_iv := List.replicate 16 85, urandom := [] }

/-! ### Lemmas on `rms` -/

theorem rmsTotal_succ (vals : List Int) (n : Nat) :
    rmsTotal vals (n + 1) = rmsTotal vals n + vals.getD n 0 * vals.getD n 0 := by
  simp [rmsTotal, List.range_succ, List.foldl_append]

theorem rmsTotal_congr (xs ys : List Int) (n : Nat)
    (h : ∀ i, i < n → xs.getD i 0 = ys.getD i 0) : rmsTotal xs n = rmsTotal ys n := by
  induction n with
  | zero => simp [rmsTotal]
  | succ k ih =>
    rw [rmsTotal_succ, rmsTotal_succ, ih (fun i hi => h i (Nat.lt_succ_of_lt hi)),
      h k (Nat.lt_succ_self k)]

theorem rmsTotal_eq_sumSquares (vals : List Int) :
    rmsTotal vals vals.length = sumSquares vals := by
  induction vals using List.reverseRecOn with
  | nil => simp [rmsTotal, sumSquares]
  | append_singleton l a ih =>
    have h1 : rmsTotal (l ++ [a]) l.length = rmsTotal l l.length := by
      apply rmsTotal_congr
      intro i hi
      simp [List.getD_eq_getElem?_getD, List.getElem?_append_left hi]
    have h2 : (l ++ [a]).getD l.length 0 = a := by
      simp [List.getD_eq_getElem?_getD]
    rw [List.length_append, List.length_singleton, rmsTotal_succ, h1, h2, ih]
    simp [sumSquares]

theorem sq_le_of_isShort {v : Int} (h : IsShort v) : v * v ≤ 1073741824 := by
  obtain ⟨h1, h2⟩ := h
  nlinarith

theorem sq_lt_of_isShort {v : Int} (h : IsShort v) (hne : v ≠ -32768) :
    v * v < 1073741824 := by
  obtain ⟨h1, h2⟩ := h
  have h3 : -32767 ≤ v := by omega
  nlinarith

theorem sumSquares_nonneg (vals : List Int) : 0 ≤ sumSquares vals := by
  induction vals with
  | nil => simp [sumSquares]
  | cons a l ih =>
    have : sumSquares (a :: l) = a * a + sumSquares l := by simp [sumSquares]
    rw [this]
    nlinarith [mul_self_nonneg a]

theorem sumSquares_le (vals : List Int) (h : ∀ v ∈ vals, IsShort v) :
    sumSquares vals ≤ vals.length * 1073741824 := by
  induction vals with
  | nil => simp [sumSquares]
  | cons a l ih =>
    have e : sumSquares (a :: l) = a * a + sumSquares l := by simp [sumSquares]
    have h1 := sq_le_of_isShort (h a (List.mem_cons_self a l))
    have h2 := ih (fun v hv => h v (List.mem_cons_of_mem a hv))
    rw [e]
    push_cast [List.length_cons]
    linarith

theorem sumSquares_lt (vals : List Int) (h : ∀ v ∈ vals, IsShort v)
    (hne : ∃ v ∈ vals, v ≠ -32768) : sumSquares vals < vals.length * 1073741824 := by
  induction vals with
  | nil => obtain ⟨v, hv, _⟩ := hne; simp at hv
  | cons a l ih =>
    have e : sumSquares (a :: l) = a * a + sumSquares l := by simp [sumSquares]
    have hl : ∀ v ∈ l, IsShort v := fun v hv => h v (List.mem_cons_of_mem a hv)
    have ha : IsShort a := h a (List.mem_cons_self a l)
    rw [e]
    push_cast [List.length_cons]
    by_cases hq : a = -32768
    · have : ∃ v ∈ l, v ≠ -32768 := by
        obtain ⟨v, hv, hvn⟩ := hne
        rcases List.mem_cons.mp hv with rfl | hv'
        · exact absurd hq hvn
        · exact ⟨v, hv', hvn⟩
      have h1 := sq_le_of_isShort ha
      have h2 := ih hl this
      linarith
    · have h1 := sq_lt_of_isShort ha hq
      have h2 := sumSquares_le l hl
      linarith

theorem sumSquares_le_bound (vals : List Int) (M : Int)
    (h : ∀ v ∈ vals, |v| ≤ M) : sumSquares vals ≤ vals.length * (M * M) := by
  induction vals with
  | nil => simp [sumSquares]
  | cons a l ih =>
    have e : sumSquares (a :: l) = a * a + sumSquares l := by simp [sumSquares]
    have h1 : a * a ≤ M * M := by
      have := h a (List.mem_cons_self a l)
      have h0 : 0 ≤ |a| := abs_nonneg a
      calc a * a = |a| * |a| := (abs_mul_abs_self a).symm
        _ ≤ M * M := by nlinarith
    have h2 := ih (fun v hv => h v (List.mem_cons_of_mem a hv))
    rw [e]
    push_cast [List.length_cons]
    linarith

theorem toShort_of_range {x : Int} (h0 : 0 ≤ x) (h1 : x ≤ 32767) : toShort x = x := by
  unfold toShort
  omega

theorem rmsTotal_bounds (vals : List Int) (h : ∀ v ∈ vals, IsShort v) (k : Nat) :
    0 ≤ rmsTotal vals k ∧ rmsTotal vals k ≤ k * 1073741824 := by
  induction k with
  | zero => simp [rmsTotal]
  | succ n ih =>
    have hs : IsShort (vals.getD n 0) := by
      rw [List.getD_eq_getElem?_getD]
      by_cases hn : n < vals.length
      · rw [List.getElem?_eq_getElem hn]
        exact h _ (List.getElem_mem hn)
      · rw [List.getElem?_eq_none (Nat.le_of_not_lt hn)]
        exact ⟨by decide, by decide⟩
    have h1 := sq_le_of_isShort hs
    have h2 := mul_self_nonneg (vals.getD n 0)
    rw [rmsTotal_succ]
    push_cast
    constructor <;> linarith [ih.1, ih.2]

theorem sqrt_toNat_le (q M : Int) (hM : 0 ≤ M) (h : q ≤ M * M) :
    (Nat.sqrt q.toNat : Int) ≤ M := by
  have h1 : q.toNat ≤ M.toNat * M.toNat := by
    have : ((M.toNat * M.toNat : Nat) : Int) = M * M := by
      push_cast [Int.toNat_of_nonneg hM]; rfl
    omega
  have h2 : Nat.sqrt q.toNat ≤ M.toNat := by
    calc Nat.sqrt q.toNat ≤ Nat.sqrt (M.toNat * M.toNat) := Nat.sqrt_le_sqrt h1
      _ = M.toNat := Nat.sqrt_eq _
  omega

theorem sumSquares_replicate (n : Nat) (v : Int) :
    sumSquares (List.replicate n v) = n * (v * v) := by
  induction n with
  | zero => simp [sumSquares]
  | succ k ih =>
    have : sumSquares (v :: List.replicate k v) = v * v + sumSquares (List.replicate k v) := by
      simp [sumSquares]
    rw [List.replicate_succ, this, ih]
    push_cast
    ring

/-! ### Lemmas on the VOX block -/

theorem vox_step_quiet (cfg : Config) (r : Int) (c : Nat)
    (hlow : cfg.vox_low > 0) (hhigh : cfg.vox_high > 0)
    (hr1 : r < cfg.vox_low) (hr2 : r ≤ cfg.vox_high) :
    (vox_step cfg r c).silent_frames = (c + 1) % 65536 := by
  unfold vox_step
  rw [if_pos ⟨hlow, hhigh⟩, if_neg (fun h => absurd h.1 (not_lt.mpr hr2)), if_pos (Or.inl hr1)]

theorem vox_counter_quiet (cfg : Config) (r : Int)
    (hlow : cfg.vox_low > 0) (hhigh : cfg.vox_high > 0)
    (hr1 : r < cfg.vox_low) (hr2 : r ≤ cfg.vox_high) (n c : Nat) :
    vox_counter cfg c (List.replicate n r) = (c % 65536 + n) % 65536 ∨
      (n = 0 ∧ vox_counter cfg c (List.replicate n r) = c) := by
  induction n generalizing c with
  | zero => right; simp [vox_counter]
  | succ k ih =>
    left
    have e : vox_counter cfg c (List.replicate (k + 1) r) =
        vox_counter cfg ((vox_step cfg r c).silent_frames) (List.replicate k r) := by
      simp [vox_counter, List.replicate_succ]
    rw [e, vox_step_quiet cfg r c hlow hhigh hr1 hr2]
    rcases ih ((c + 1) % 65536) with h | ⟨hk, h⟩
    · rw [h]; omega
    · rw [h, hk]; omega

theorem vox_counter_silence (cfg : Config)
    (hlow : cfg.vox_low > 0) (hhigh : cfg.vox_high > 0) (n : Nat) :
    vox_counter cfg 0 (silence n) = n % 65536 := by
  rcases vox_counter_quiet cfg 0 hlow hhigh hlow hhigh.le n 0 with h | ⟨hn, h⟩
  · unfold silence; rw [h]; omega
  · unfold silence; rw [h, hn]

theorem vox_at_silence (cfg : Config)
    (hlow : cfg.vox_low > 0) (hhigh : cfg.vox_high > 0) (n k : Nat) :
    vox_at cfg (silence n) k = vox_step cfg 0 (min k n % 65536) := by
  have h1 : (silence n).getD k 0 = 0 := by
    unfold silence
    rw [List.getD_eq_getElem?_getD]
    by_cases hk : k < n
    · simp [List.getElem?_replicate, hk]
    · simp [List.getElem?_replicate, hk]
  have h2 : (silence n).take k = silence (min k n) := by
    unfold silence; exact List.take_replicate 0 k n
  unfold vox_at
  rw [h1, h2, vox_counter_silence cfg hlow hhigh]

theorem vox_step_no_speech (cfg : Config) (r : Int) (c : Nat) (hr : r ≤ cfg.vox_high) :
    (vox_step cfg r c).speech_detected = false := by
  unfold vox_step
  have : ¬ (r > cfg.vox_high ∧ c > 0) := fun h => absurd h.1 (not_lt.mpr hr)
  split_ifs <;> rfl

theorem toCInt_of_range {x : Int} (h0 : -2147483648 ≤ x) (h1 : x ≤ 2147483647) :
    toCInt x = x := by
  unfold toCInt
  omega

theorem vox_step_reset_iv (cfg : Config) (r : Int) (c : Nat) :
    (vox_step cfg r c).reset_iv = true ↔
      (cfg.vox_low > 0 ∧ cfg.vox_high > 0 ∧ ¬(r > cfg.vox_high ∧ c > 0) ∧
        (r < cfg.vox_low ∨ c > 0) ∧
        ((cfg.vox_period > 0 ∧
            (((c + 1) % 65536 : Nat) : Int) = toCInt (25 * cfg.vox_period)) ∨
         (cfg.silent_period > 0 ∧
            Int.tmod (((c + 1) % 65536 : Nat) : Int) (toCInt (25 * cfg.silent_period)) = 0))) := by
  unfold vox_step VoxResult.reset_iv
  by_cases h1 : cfg.vox_low > 0 ∧ cfg.vox_high > 0
  · by_cases h2 : r > cfg.vox_high ∧ c > 0
    · simp [h1, h2]
    · by_cases h3 : r < cfg.vox_low ∨ c > 0
      · rw [if_pos h1, if_neg h2, if_pos h3]
        simp only [Bool.or_eq_true, decide_eq_true_eq]
        constructor
        · intro h
          exact ⟨h1.1, h1.2, h2, h3, h⟩
        · rintro ⟨-, -, -, -, h⟩
          exact h
      · rw [if_pos h1, if_neg h2, if_neg h3]
        simp only [Bool.or_self, Bool.false_eq_true, false_iff]
        rintro ⟨-, -, -, h, -⟩
        exact h3 h
  · rw [if_neg h1]
    simp only [Bool.or_self, Bool.false_eq_true, false_iff]
    rintro ⟨ha, hb, -⟩
    exact h1 ⟨ha, hb⟩

theorem rotation_condition_exact (vp sp n : Int) (hn : 0 ≤ n)
    (hvp : 25 * vp ≤ 2147483647) (hsp : 25 * sp ≤ 2147483647) :
    ((vp > 0 ∧ n = toCInt (25 * vp)) ∨ (sp > 0 ∧ Int.tmod n (toCInt (25 * sp)) = 0)) ↔
    ((vp > 0 ∧ n = 25 * vp) ∨ (sp > 0 ∧ n % (25 * sp) = 0)) := by
  have e1 : vp > 0 → toCInt (25 * vp) = 25 * vp :=
    fun h => toCInt_of_range (by linarith) hvp
  have e2 : sp > 0 → toCInt (25 * sp) = 25 * sp :=
    fun h => toCInt_of_range (by linarith) hsp
  have e3 : sp > 0 → Int.tmod n (25 * sp) = n % (25 * sp) :=
    fun h => Int.tmod_eq_emod hn (by linarith)
  constructor
  · rintro (⟨h, h'⟩ | ⟨h, h'⟩)
    · exact Or.inl ⟨h, by rw [h', e1 h]⟩
    · exact Or.inr ⟨h, by rw [← e3 h, ← e2 h]; exact h'⟩
  · rintro (⟨h, h'⟩ | ⟨h, h'⟩)
    · exact Or.inl ⟨h, by rw [h', e1 h]⟩
    · exact Or.inr ⟨h, by rw [e2 h, e3 h]; exact h'⟩

theorem vox_step_disabled (cfg : Config) (r : Int) (c : Nat)
    (h : ¬(cfg.vox_low > 0 ∧ cfg.vox_high > 0)) :
    vox_step cfg r c =
      { silent_frames := c, speech_detected := false, counted := false,
        end_of_speech := false, periodic := false } := by
  unfold vox_step
  rw [if_neg h]

theorem iv_reads_append (a b : List Event) : iv_reads (a ++ b) = iv_reads a + iv_reads b := by
  simp [iv_reads, List.countP_append]

theorem set_cryptos_append (a b : List Event) :
    set_cryptos (a ++ b) = set_cryptos a ++ set_cryptos b := by
  simp [set_cryptos, List.filterMap_append]

theorem hooks_append (a b : List Event) : hooks (a ++ b) = hooks a ++ hooks b := by
  simp [hooks, List.filterMap_append]

theorem key_touched_append (a b : List Event) :
    key_touched (a ++ b) = (key_touched a || key_touched b) := by
  simp [key_touched, List.any_append]

theorem vox_log_quiet (cfg : Config) (r : VoxResult) :
    iv_reads (vox_log cfg r) = 0 ∧ set_cryptos (vox_log cfg r) = [] ∧
      hooks (vox_log cfg r) = [] := by
  unfold vox_log
  split_ifs <;> simp [iv_reads, set_cryptos, hooks, Event.hook?]

theorem try_system_obs (h : Hook) (cmd : String) :
    iv_reads (try_system h cmd) = 0 ∧ set_cryptos (try_system h cmd) = [] ∧
      hooks (try_system h cmd) = [h] ∧ key_touched (try_system h cmd) = false := by
  unfold try_system
  split_ifs <;> simp [iv_reads, set_cryptos, hooks, Event.hook?, key_touched]

theorem try_system_async_obs (h : Hook) (cmd : String) :
    iv_reads (try_system_async h cmd) = 0 ∧ set_cryptos (try_system_async h cmd) = [] ∧
      hooks (try_system_async h cmd) = [h] ∧ key_touched (try_system_async h cmd) = false := by
  unfold try_system_async
  split_ifs <;> simp [iv_reads, set_cryptos, hooks, Event.hook?, key_touched]

theorem rotate_iv_obs (st : State) :
    iv_reads (rotate_iv st).2 = 1 ∧
    set_cryptos (rotate_iv st).2 = [(none, (rotate_iv st).1.iv)] ∧
    hooks (rotate_iv st).2 =
      [if (st.urandom.take IV_SIZE).length = IV_SIZE then Hook.vox else Hook.error] ∧
    (rotate_iv st).1.iv =
      st.urandom.take IV_SIZE ++ st.iv.drop (st.urandom.take IV_SIZE).length ∧
    (rotate_iv st).1.bound_iv = (rotate_iv st).1.iv ∧
    (rotate_iv st).1.key = st.key ∧ (rotate_iv st).1.bound_key = st.bound_key ∧
    (rotate_iv st).1.silent_frames = st.silent_frames := by
  unfold rotate_iv fread_bytes freedv_set_crypto
  by_cases hfull : IV_SIZE ≤ st.urandom.length
  · have h2 : ¬ st.urandom.length < IV_SIZE := Nat.not_lt.mpr hfull
    simp [hfull, h2, iv_reads, set_cryptos, hooks, Event.hook?, try_system_async]
  · have h2 : st.urandom.length < IV_SIZE := Nat.lt_of_not_le hfull
    simp [hfull, h2, iv_reads, set_cryptos, hooks, Event.hook?, try_system_async]

theorem main_frame_counts (st : State) (speech_in : List Int) (P : Prop) [Decidable P]
    (hP : (vox_step st.cur (rms speech_in speech_in.length) st.silent_frames).reset_iv = true
      ↔ P) :
    iv_reads (main_frame st speech_in).2 = (if P then 1 else 0) ∧
    set_cryptos (main_frame st speech_in).2 =
      (if P then [(none, (main_frame st speech_in).1.iv)] else []) := by
  have hlog := vox_log_quiet st.cur
    (vox_step st.cur (rms speech_in speech_in.length) st.silent_frames)
  by_cases hr : (vox_step st.cur (rms speech_in speech_in.length) st.silent_frames).reset_iv
      = true
  · rw [if_pos (hP.mp hr), if_pos (hP.mp hr)]
    constructor
    · simp only [main_frame, main_vox, hr, if_true, iv_reads_append, hlog.1,
        (rotate_iv_obs _).1]
      simp [iv_reads]
    · simp only [main_frame, main_vox, hr, if_true, set_cryptos_append, hlog.2.1,
        (rotate_iv_obs _).2.1]
      simp [set_cryptos]
  · rw [if_neg (fun h => hr (hP.mpr h)), if_neg (fun h => hr (hP.mpr h))]
    rw [Bool.not_eq_true] at hr
    constructor
    · simp only [main_frame, main_vox, hr, Bool.false_eq_true, if_false, iv_reads_append,
        hlog.1]
      simp [iv_reads]
    · simp only [main_frame, main_vox, hr, Bool.false_eq_true, if_false, set_cryptos_append,
        hlog.2.1]
      simp [set_cryptos]

/-! ### Lemmas on the startup and reload passes -/

theorem open_streams_ok (env : PassEnv) (stream : List Byte)
    (hin : env.fin_ok = true) (hout : env.fout_ok = true) (hrand : env.urandom = some stream) :
    open_streams env = ([], some stream) := by
  simp [open_streams, hin, hout, hrand]

theorem open_streams_fail (env : PassEnv)
    (h : env.fin_ok = false ∨ env.fout_ok = false ∨ env.urandom = none) :
    (open_streams env).2 = none ∧ hooks (open_streams env).1 = [Hook.error] ∧
    iv_reads (open_streams env).1 = 0 ∧ set_cryptos (open_streams env).1 = [] ∧
    key_touched (open_streams env).1 = false ∧
    (∃ before, (open_streams env).1 = before ++ try_system Hook.error env.cfg.error_cmd) := by
  obtain ⟨t1, t2, t3, t4⟩ := try_system_obs Hook.error env.cfg.error_cmd
  unfold open_streams
  by_cases hin : env.fin_ok = false
  · rw [if_pos hin]
    refine ⟨rfl, ?_, ?_, ?_, ?_, ⟨[_], rfl⟩⟩
    · simpa [hooks, Event.hook?] using t3
    · simpa [iv_reads] using t1
    · simpa [set_cryptos] using t2
    · simpa [key_touched] using t4
  · rw [if_neg hin]
    by_cases hout : env.fout_ok = false
    · rw [if_pos hout]
      refine ⟨rfl, ?_, ?_, ?_, ?_, ⟨[_], rfl⟩⟩
      · simpa [hooks, Event.hook?] using t3
      · simpa [iv_reads] using t1
      · simpa [set_cryptos] using t2
      · simpa [key_touched] using t4
    · rw [if_neg hout]
      have hr : env.urandom = none := by
        rcases h with h | h | h
        · exact absurd h hin
        · exact absurd h hout
        · exact h
      rw [hr]
      refine ⟨rfl, ?_, ?_, ?_, ?_, ⟨[_], rfl⟩⟩
      · simpa [hooks, Event.hook?] using t3
      · simpa [iv_reads] using t1
      · simpa [set_cryptos] using t2
      · simpa [key_touched] using t4

theorem take_length_ne (l : List Byte) (n : Nat) : (l.take n).length ≠ n ↔ l.length < n := by
  rw [List.length_take]; omega

theorem main_reload_ok (st : State) (env : PassEnv) (stream : List Byte)
    (hin : env.fin_ok = true) (hout : env.fout_ok = true) (hrand : env.urandom = some stream) :
    (main_reload st env).status = Status.running ∧
    (main_reload st env).state.iv = stream.take 16 ++ st.iv.drop (stream.take 16).length ∧
    (main_reload st env).state.key =
      env.key_src.take 32 ++ List.replicate (32 - (env.key_src.take 32).length) 0 ∧
    (main_reload st env).state.bound_iv = (main_reload st env).state.iv ∧
    (main_reload st env).state.bound_key = (main_reload st env).state.key ∧
    set_cryptos (main_reload st env).trace =
      [(some (main_reload st env).state.key, (main_reload st env).state.iv)] ∧
    hooks (main_reload st env).trace =
      (if stream.length < 16 ∨ env.key_src.length < 32 then [Hook.error] else []) := by
  have hopen := open_streams_ok env stream hin hout hrand
  have e1 := take_length_ne stream 16
  have e2 := take_length_ne env.key_src 32
  refine ⟨?_, ?_, ?_, ?_, ?_, ?_, ?_⟩
  · simp [main_reload, hopen]
  · simp [main_reload, hopen, fread_bytes, freedv_set_crypto, IV_SIZE]
  · simp [main_reload, hopen, read_key_file, freedv_set_crypto, FREEDV_MASTER_KEY_LENGTH,
      -List.reduceReplicate, List.drop_replicate]
  · simp [main_reload, hopen, fread_bytes, freedv_set_crypto, IV_SIZE]
  · simp [main_reload, hopen, read_key_file, freedv_set_crypto, FREEDV_MASTER_KEY_LENGTH,
      -List.reduceReplicate, List.drop_replicate]
  · have ts := fun h c => (try_system_async_obs h c).2.1
    simp only [main_reload, hopen, fread_bytes, read_key_file, freedv_set_crypto, IV_SIZE,
      FREEDV_MASTER_KEY_LENGTH, set_cryptos_append, apply_ite set_cryptos, ts]
    simp [set_cryptos]
  · simp only [main_reload, hopen, fread_bytes, read_key_file, IV_SIZE,
      FREEDV_MASTER_KEY_LENGTH, hooks_append, Bool.or_eq_true, decide_eq_true_eq, e1, e2]
    by_cases h1 : stream.length < 16 <;> by_cases h2 : env.key_src.length < 32 <;>
      simp [h1, h2, hooks, Event.hook?, try_system_async,
        apply_ite (List.filterMap Event.hook?)]

theorem main_startup_ok (argc : Nat) (env : PassEnv) (iv0 stream : List Byte)
    (hargc : 2 ≤ argc)
    (hin : env.fin_ok = true) (hout : env.fout_ok = true) (hrand : env.urandom = some stream) :
    (main_startup argc env iv0 true).status = Status.running ∧
    (main_startup argc env iv0 true).state.iv =
      stream.take 16 ++ iv0.drop (stream.take 16).length ∧
    (main_startup argc env iv0 true).state.key =
      env.key_src.take 32 ++ List.replicate (32 - (env.key_src.take 32).length) 0 ∧
    (main_startup argc env iv0 true).state.bound_iv = (main_startup argc env iv0 true).state.iv ∧
    (main_startup argc env iv0 true).state.bound_key =
      (main_startup argc env iv0 true).state.key ∧
    set_cryptos (main_startup argc env iv0 true).trace =
      [(some (main_startup argc env iv0 true).state.key,
        (main_startup argc env iv0 true).state.iv)] ∧
    hooks (main_startup argc env iv0 true).trace =
      (if stream.length < 16 ∨ env.key_src.length < 32 then [Hook.error] else []) ++
        [Hook.ready] := by
  have hopen := open_streams_ok env stream hin hout hrand
  have e1 := take_length_ne stream 16
  have e2 := take_length_ne env.key_src 32
  have ha : ¬ argc < 2 := Nat.not_lt.mpr hargc
  refine ⟨?_, ?_, ?_, ?_, ?_, ?_, ?_⟩
  · simp [main_startup, hopen, ha]
  · simp [main_startup, hopen, ha, fread_bytes, freedv_set_crypto, IV_SIZE]
  · simp [main_startup, hopen, ha, read_key_file, freedv_set_crypto, FREEDV_MASTER_KEY_LENGTH,
      -List.reduceReplicate, List.drop_replicate]
  · simp [main_startup, hopen, ha, fread_bytes, freedv_set_crypto, IV_SIZE]
  · simp [main_startup, hopen, ha, read_key_file, freedv_set_crypto, FREEDV_MASTER_KEY_LENGTH,
      -List.reduceReplicate, List.drop_replicate]
  · have ts := fun h c => (try_system_obs h c).2.1
    simp only [main_startup, hopen, ha, if_false, fread_bytes, read_key_file, freedv_set_crypto,
      IV_SIZE, FREEDV_MASTER_KEY_LENGTH, set_cryptos_append, if_true, apply_ite set_cryptos, ts]
    simp [set_cryptos]
  · simp only [main_startup, hopen, ha, if_false, fread_bytes, read_key_file, IV_SIZE,
      FREEDV_MASTER_KEY_LENGTH, hooks_append, Bool.or_eq_true, decide_eq_true_eq, e1, e2,
      if_true]
    by_cases h1 : stream.length < 16 <;> by_cases h2 : env.key_src.length < 32 <;>
      simp [h1, h2, hooks, Event.hook?, try_system,
        apply_ite (List.filterMap Event.hook?)]

/-! ## The claims -/

/-- C10: for a frame of `len > 0` samples of type `short`, not all of them
`-32768`, `rms` returns the integer square root of the integer quotient of the
sum of the squared samples by `len`; every partial sum of the loop is
non-negative and below `2^63`, the result lies in `0 .. 32767` and does not
exceed any bound on the absolute sample values, and a frame of constant value
`v` gives `|v|`.  For `len <= 0` the result is `0`. -/
theorem rms_value (vals : List Int) (len : Int)
    (hlen : vals.length = len.toNat) (hshort : ∀ v ∈ vals, IsShort v)
    (hint : len < 2147483648) :
    (∀ (vs : List Int) (l : Int), l ≤ 0 → rms vs l = 0) ∧
    (0 < len → (∃ v ∈ vals, v ≠ -32768) →
      rmsTotal vals len.toNat = sumSquares vals ∧
      (∀ k, k ≤ len.toNat → 0 ≤ rmsTotal vals k ∧ rmsTotal vals k < 2 ^ 63) ∧
      rms vals len = Nat.sqrt (sumSquares vals / len).toNat ∧
      0 ≤ rms vals len ∧ rms vals len ≤ 32767 ∧
      (∀ M : Int, (∀ v ∈ vals, |v| ≤ M) → rms vals len ≤ M) ∧
      (∀ v : Int, vals = List.replicate len.toNat v → rms vals len = |v|)) := by
  refine ⟨fun vs l hl => by simp [rms, not_lt.mpr hl], fun hpos hne => ?_⟩
  have hn : (vals.length : Int) = len := by rw [hlen]; exact Int.toNat_of_nonneg hpos.le
  have htot : rmsTotal vals len.toNat = sumSquares vals := by
    rw [← hlen]; exact rmsTotal_eq_sumSquares vals
  have hS0 := sumSquares_nonneg vals
  have hSlt : sumSquares vals < 1073741824 * len := by
    have := sumSquares_lt vals hshort hne
    rw [hn] at this; linarith
  have hq0 : 0 ≤ sumSquares vals / len := Int.ediv_nonneg hS0 hpos.le
  have hqlt : sumSquares vals / len < 1073741824 := Int.ediv_lt_of_lt_mul hpos hSlt
  have hdiv : Int.tdiv (rmsTotal vals len.toNat) len = sumSquares vals / len := by
    rw [htot]; exact Int.tdiv_eq_ediv hS0 hpos.le
  have hroot : Nat.sqrt (sumSquares vals / len).toNat < 32768 := by
    rw [Nat.sqrt_lt]; omega
  have hval : rms vals len = Nat.sqrt (sumSquares vals / len).toNat := by
    unfold rms
    rw [if_pos hpos, hdiv]
    exact toShort_of_range (Int.ofNat_nonneg _) (by simp only [Int.ofNat_eq_coe]; omega)
  have hbound : ∀ M : Int, (∀ v ∈ vals, |v| ≤ M) → rms vals len ≤ M := by
    intro M hM
    obtain ⟨v, hv, -⟩ := hne
    have hM0 : 0 ≤ M := le_trans (abs_nonneg v) (hM v hv)
    have hle := sumSquares_le_bound vals M hM
    rw [hn] at hle
    have hq : sumSquares vals / len ≤ M * M :=
      Int.ediv_le_of_le_mul hpos (by linarith)
    rw [hval]
    exact sqrt_toNat_le _ M hM0 hq
  refine ⟨htot, ?_, hval, ?_, ?_, hbound, ?_⟩
  · intro k hk
    have hb := rmsTotal_bounds vals hshort k
    refine ⟨hb.1, ?_⟩
    have hk2 : (k : Int) ≤ len := by omega
    have : (k : Int) * 1073741824 < 2 ^ 63 := by norm_num; omega
    linarith [hb.2]
  · rw [hval]; exact Int.ofNat_nonneg _
  · rw [hval]; omega
  · intro v hv
    have hS : sumSquares vals = len * (v * v) := by
      rw [hv, sumSquares_replicate, Int.toNat_of_nonneg hpos.le]
    have hq : sumSquares vals / len = v * v := by
      rw [hS]; exact Int.mul_ediv_cancel_left _ hpos.ne'
    have habs : v * v = |v| * |v| := (abs_mul_abs_self v).symm
    apply le_antisymm
    · exact hbound |v| (by rw [hv]; intro w hw; rw [List.eq_of_mem_replicate hw])
    · rw [hval, hq]
      have h0 : 0 ≤ |v| := abs_nonneg v
      have h1 : |v|.toNat * |v|.toNat ≤ (v * v).toNat := by
        have : ((|v|.toNat * |v|.toNat : Nat) : Int) = |v| * |v| := by
          push_cast [Int.toNat_of_nonneg h0]; rfl
        have h2 : 0 ≤ v * v := mul_self_nonneg v
        omega
      have h3 : |v|.toNat ≤ Nat.sqrt (v * v).toNat := Nat.le_sqrt.mpr h1
      omega

/-- Witness for C10: the frame `[3, 4, -5]`. -/
theorem rms_value_witness :
    [3, 4, -5].length = (3 : Int).toNat ∧ (∀ v ∈ [3, 4, -5], IsShort v) ∧
    rms [3, 4, -5] 3 = Nat.sqrt (sumSquares [3, 4, -5] / 3).toNat ∧
    rms [3, 4, -5] 3 ≤ 5 :=
  have h := (rms_value [3, 4, -5] 3 (by decide) (by decide) (by decide)).2
    (by decide) ⟨3, by decide, by decide⟩
  ⟨by decide, by decide, h.2.2.1, h.2.2.2.2.2.1 5 (by decide)⟩

/-- C1, evaluated at the failing input: with `vox_period = 2` and 65586 frames
of RMS 0 the end-of-speech rotation fires on frame 50 (index 49) and fires
again on frame 65586 (index 65585), although no frame at all is a
speech-resumed frame: the 16-bit counter went from 65535 to 0 on frame 65536
and reached 50 a second time. -/
theorem end_of_speech_fires_again_after_wrap :
    (vox_at cfg_end_of_speech (silence 65586) 49).end_of_speech = true ∧
    (vox_at cfg_end_of_speech (silence 65586) 65585).end_of_speech = true ∧
    (∀ k, (vox_at cfg_end_of_speech (silence 65586) k).speech_detected = false) ∧
    vox_counter cfg_end_of_speech 0 (silence 65535) = 65535 ∧
    vox_counter cfg_end_of_speech 0 (silence 65536) = 0 := by
  have hlow : cfg_end_of_speech.vox_low > 0 := by decide
  have hhigh : cfg_end_of_speech.vox_high > 0 := by decide
  refine ⟨?_, ?_, ?_, ?_, ?_⟩
  · rw [vox_at_silence _ hlow hhigh]; decide
  · rw [vox_at_silence _ hlow hhigh]; decide
  · intro k
    rw [vox_at_silence _ hlow hhigh]
    exact vox_step_no_speech _ _ _ (by decide)
  · rw [vox_counter_silence _ hlow hhigh]
  · rw [vox_counter_silence _ hlow hhigh]

/-- C2, evaluated at the failing input: with `silent_period = 60` (a rotation
every 1500 silent frames) and one uninterrupted run of silence, the periodic
rotation fires on the 65536th silent frame, which is no multiple of 1500, does
not fire on the 66000th, which is one, and fires next on the 67036th; the
16-bit counter went from 65535 to 0 on frame 65536 and no frame of the run is a
speech-resumed frame. -/
theorem periodic_rotation_off_phase_after_wrap :
    (vox_at cfg_periodic (silence 70000) 64499).periodic = true ∧
    (vox_at cfg_periodic (silence 70000) 65535).periodic = true ∧
    (vox_at cfg_periodic (silence 70000) 65999).periodic = false ∧
    (vox_at cfg_periodic (silence 70000) 67035).periodic = true ∧
    64500 % (25 * 60) = 0 ∧ 65536 % (25 * 60) ≠ 0 ∧ 66000 % (25 * 60) = 0 ∧
    67036 % (25 * 60) ≠ 0 ∧
    (∀ k, (vox_at cfg_periodic (silence 70000) k).speech_detected = false) ∧
    (∀ k, (vox_at cfg_periodic (silence 70000) k).counted = true) := by
  have hlow : cfg_periodic.vox_low > 0 := by decide
  have hhigh : cfg_periodic.vox_high > 0 := by decide
  refine ⟨?_, ?_, ?_, ?_, by decide, by decide, by decide, by decide, ?_, ?_⟩
  · rw [vox_at_silence _ hlow hhigh]; decide
  · rw [vox_at_silence _ hlow hhigh]; decide
  · rw [vox_at_silence _ hlow hhigh]; decide
  · rw [vox_at_silence _ hlow hhigh]; decide
  · intro k
    rw [vox_at_silence _ hlow hhigh]
    exact vox_step_no_speech _ _ _ (by decide)
  · intro k
    rw [vox_at_silence _ hlow hhigh]
    unfold vox_step
    rw [if_pos ⟨hlow, hhigh⟩, if_neg (fun h => absurd h.1 (by decide)),
      if_pos (Or.inl (by decide))]

/-- C6, with the case in which it fails: with VOX enabled, a frame with
`rms > vox_high` while the counter is `> 0` sets the counter to 0 and triggers
no rotation; otherwise a frame with `rms < vox_low` or a counter `> 0` leaves
the counter at `(old + 1) mod 65536`; otherwise the counter is unchanged.  At
the old value 65535 the counted frame therefore leaves the counter at 0, not
at a greater value, and it is no speech-resumed frame. -/
theorem vox_step_counter (cfg : Config) (rms_val : Int) (c : Nat)
    (hlow : cfg.vox_low > 0) (hhigh : cfg.vox_high > 0) :
    (rms_val > cfg.vox_high ∧ c > 0 →
      (vox_step cfg rms_val c).silent_frames = 0 ∧
      (vox_step cfg rms_val c).reset_iv = false) ∧
    (¬(rms_val > cfg.vox_high ∧ c > 0) → (rms_val < cfg.vox_low ∨ c > 0) →
      (vox_step cfg rms_val c).silent_frames = (c + 1) % 65536) ∧
    (¬(rms_val > cfg.vox_high ∧ c > 0) → ¬(rms_val < cfg.vox_low ∨ c > 0) →
      (vox_step cfg rms_val c).silent_frames = c) ∧
    (rms_val ≤ cfg.vox_high →
      (vox_step cfg rms_val 65535).silent_frames = 0 ∧
      (vox_step cfg rms_val 65535).counted = true ∧
      (vox_step cfg rms_val 65535).speech_detected = false) := by
  refine ⟨fun h => ?_, fun h2 h3 => ?_, fun h2 h3 => ?_, fun hr => ?_⟩
  · unfold vox_step VoxResult.reset_iv
    rw [if_pos ⟨hlow, hhigh⟩, if_pos h]
    exact ⟨rfl, rfl⟩
  · unfold vox_step
    rw [if_pos ⟨hlow, hhigh⟩, if_neg h2, if_pos h3]
  · unfold vox_step
    rw [if_pos ⟨hlow, hhigh⟩, if_neg h2, if_neg h3]
  · unfold vox_step
    rw [if_pos ⟨hlow, hhigh⟩, if_neg (fun h => absurd h.1 (not_lt.mpr hr)),
      if_pos (Or.inr (by decide))]
    exact ⟨rfl, rfl, rfl⟩

/-- Witness for C6: a silent frame at the counter value 65535. -/
theorem vox_step_counter_witness :
    cfg_end_of_speech.vox_low > 0 ∧ cfg_end_of_speech.vox_high > 0 ∧
    (vox_step cfg_end_of_speech 0 65535).silent_frames = 0 ∧
    (vox_step cfg_end_of_speech 0 65535).counted = true ∧
    (vox_step cfg_end_of_speech 0 65535).speech_detected = false :=
  ⟨by decide, by decide,
    (vox_step_counter cfg_end_of_speech 0 65535 (by decide) (by decide)).2.2.2 (by decide)⟩

/-- C7: the loop body performs, for the VOX block of a frame, exactly one read
from the random source and exactly one `freedv_set_crypto` (with the NULL key)
when both thresholds are `> 0`, the frame is counted as silent and the
end-of-speech condition (`vox_period > 0` and `counter == 25 * vox_period`) or
the periodic condition (`silent_period > 0` and
`counter % (25 * silent_period) == 0`) holds for the counter after
`++silent_frames`, and none otherwise.  The two conditions are first taken as
the C expressions of lines 181-182 and 188-189 (`int` products, C remainder),
for every configuration; then, for periods whose product with 25 fits an
`int`, with the exact products and the mathematical remainder.  With a
threshold `<= 0` the frame is only transformed and written and the state,
counter included, is unchanged. -/
theorem vox_rotation_count (st : State) (speech_in : List Int) :
    (iv_reads (main_frame st speech_in).2 =
      (if (st.cur.vox_low > 0 ∧ st.cur.vox_high > 0 ∧
          ¬(rms speech_in speech_in.length > st.cur.vox_high ∧ st.silent_frames > 0) ∧
          (rms speech_in speech_in.length < st.cur.vox_low ∨ st.silent_frames > 0) ∧
          ((st.cur.vox_period > 0 ∧
              (((st.silent_frames + 1) % 65536 : Nat) : Int) =
                toCInt (25 * st.cur.vox_period)) ∨
           (st.cur.silent_period > 0 ∧
              Int.tmod (((st.silent_frames + 1) % 65536 : Nat) : Int)
                (toCInt (25 * st.cur.silent_period)) = 0)))
      then 1 else 0) ∧
     set_cryptos (main_frame st speech_in).2 =
      (if (st.cur.vox_low > 0 ∧ st.cur.vox_high > 0 ∧
          ¬(rms speech_in speech_in.length > st.cur.vox_high ∧ st.silent_frames > 0) ∧
          (rms speech_in speech_in.length < st.cur.vox_low ∨ st.silent_frames > 0) ∧
          ((st.cur.vox_period > 0 ∧
              (((st.silent_frames + 1) % 65536 : Nat) : Int) =
                toCInt (25 * st.cur.vox_period)) ∨
           (st.cur.silent_period > 0 ∧
              Int.tmod (((st.silent_frames + 1) % 65536 : Nat) : Int)
                (toCInt (25 * st.cur.silent_period)) = 0)))
      then [(none, (main_frame st speech_in).1.iv)] else [])) ∧
    (25 * st.cur.vox_period ≤ 2147483647 → 25 * st.cur.silent_period ≤ 2147483647 →
     iv_reads (main_frame st speech_in).2 =
      (if (st.cur.vox_low > 0 ∧ st.cur.vox_high > 0 ∧
          ¬(rms speech_in speech_in.length > st.cur.vox_high ∧ st.silent_frames > 0) ∧
          (rms speech_in speech_in.length < st.cur.vox_low ∨ st.silent_frames > 0) ∧
          ((st.cur.vox_period > 0 ∧
              (((st.silent_frames + 1) % 65536 : Nat) : Int) = 25 * st.cur.vox_period) ∨
           (st.cur.silent_period > 0 ∧
              (((st.silent_frames + 1) % 65536 : Nat) : Int) % (25 * st.cur.silent_period) = 0)))
      then 1 else 0) ∧
     set_cryptos (main_frame st speech_in).2 =
      (if (st.cur.vox_low > 0 ∧ st.cur.vox_high > 0 ∧
          ¬(rms speech_in speech_in.length > st.cur.vox_high ∧ st.silent_frames > 0) ∧
          (rms speech_in speech_in.length < st.cur.vox_low ∨ st.silent_frames > 0) ∧
          ((st.cur.vox_period > 0 ∧
              (((st.silent_frames + 1) % 65536 : Nat) : Int) = 25 * st.cur.vox_period) ∨
           (st.cur.silent_period > 0 ∧
              (((st.silent_frames + 1) % 65536 : Nat) : Int) % (25 * st.cur.silent_period) = 0)))
      then [(none, (main_frame st speech_in).1.iv)] else [])) ∧
    (¬(st.cur.vox_low > 0 ∧ st.cur.vox_high > 0) →
      main_frame st speech_in = (st, [Event.freedv_tx, Event.fwrite])) := by
  have hchar := vox_step_reset_iv st.cur (rms speech_in speech_in.length) st.silent_frames
  refine ⟨main_frame_counts st speech_in _ hchar, fun hvp hsp => ?_, fun hdis => ?_⟩
  · have hex := rotation_condition_exact st.cur.vox_period st.cur.silent_period
      (((st.silent_frames + 1) % 65536 : Nat) : Int) (Int.ofNat_nonneg _) hvp hsp
    refine main_frame_counts st speech_in _ (hchar.trans ?_)
    constructor
    · rintro ⟨a, b, c, d, e⟩
      exact ⟨a, b, c, d, hex.mp e⟩
    · rintro ⟨a, b, c, d, e⟩
      exact ⟨a, b, c, d, hex.mpr e⟩
  · have hstep := vox_step_disabled st.cur (rms speech_in speech_in.length) st.silent_frames hdis
    simp [main_frame, main_vox, hstep, VoxResult.reset_iv, vox_log, hdis]

/-- Witness for C7: the 50th silent frame under `vox_period = 2`, where the
products fit an `int` and the end-of-speech condition holds: one read from the
random source. -/
theorem vox_rotation_count_witness :
    25 * st_before_rotation.cur.vox_period ≤ 2147483647 ∧
    25 * st_before_rotation.cur.silent_period ≤ 2147483647 ∧
    iv_reads (main_frame st_before_rotation [0, 0, 0]).2 = 1 :=
  have h := (vox_rotation_count st_before_rotation [0, 0, 0]).2.1 (by decide) (by decide)
  ⟨by decide, by decide, h.1.trans (if_pos (by decide))⟩

/-- C8: on a frame whose VOX decision triggers a rotation, the key buffer and
the key held by the codec are unchanged, `freedv_set_crypto` is called once,
with the NULL key and the IV buffer, which holds the bytes the random source
delivered in front of what it held beyond them, also when fewer than 16
arrived; exactly one hook is requested, the vox hook after a full read and the
error hook after a short one; and the trace of the frame ends with the
transform and the write. -/
theorem vox_rotation_effect (st : State) (speech_in : List Int)
    (h : (vox_step st.cur (rms speech_in speech_in.length) st.silent_frames).reset_iv = true) :
    (main_frame st speech_in).1.key = st.key ∧
    (main_frame st speech_in).1.bound_key = st.bound_key ∧
    (main_frame st speech_in).1.iv =
      st.urandom.take 16 ++ st.iv.drop (st.urandom.take 16).length ∧
    (main_frame st speech_in).1.bound_iv = (main_frame st speech_in).1.iv ∧
    iv_reads (main_frame st speech_in).2 = 1 ∧
    set_cryptos (main_frame st speech_in).2 = [(none, (main_frame st speech_in).1.iv)] ∧
    hooks (main_frame st speech_in).2 =
      [if (st.urandom.take 16).length = 16 then Hook.vox else Hook.error] ∧
    (∃ before, (main_frame st speech_in).2 = before ++ [Event.freedv_tx, Event.fwrite]) := by
  have hlog := vox_log_quiet st.cur
    (vox_step st.cur (rms speech_in speech_in.length) st.silent_frames)
  have hrot := rotate_iv_obs
    { st with silent_frames :=
        (vox_step st.cur (rms speech_in speech_in.length) st.silent_frames).silent_frames }
  obtain ⟨r1, r2, r3, r4, r5, r6, r7, -⟩ := hrot
  simp only [IV_SIZE] at r3 r4
  simp only [main_frame, main_vox, h, if_true]
  refine ⟨r6, r7, r4, r5, ?_, ?_, ?_, ⟨_, rfl⟩⟩
  · rw [iv_reads_append, iv_reads_append, hlog.1, r1]; simp [iv_reads]
  · rw [set_cryptos_append, set_cryptos_append, hlog.2.1, r2]; simp [set_cryptos]
  · rw [hooks_append, hooks_append, hlog.2.2, r3]; simp [hooks, Event.hook?]

/-- Witness for C8: the 50th silent frame under `vox_period = 2`. -/
theorem vox_rotation_effect_witness :
    (vox_step st_before_rotation.cur (rms [0, 0, 0] ([0, 0, 0] : List Int).length)
      st_before_rotation.silent_frames).reset_iv = true ∧
    (main_frame st_before_rotation [0, 0, 0]).1.key = st_before_rotation.key ∧
    hooks (main_frame st_before_rotation [0, 0, 0]).2 =
      [if (st_before_rotation.urandom.take 16).length = 16 then Hook.vox else Hook.error] :=
  have h := vox_rotation_effect st_before_rotation [0, 0, 0] (by decide)
  ⟨by decide, h.1, h.2.2.2.2.2.2.1⟩

/-- C9: a reload pass in which the source, the destination or the random
stream is missing after the reopening ends in `exit(1)`; the error hook is the
one hook requested and its call closes the trace; the IV buffer, the key
buffer and the key and IV held by the codec are as before the pass, and the
pass reads nothing from the random source, does not zero or read the key and
does not call `freedv_set_crypto`. -/
theorem reload_open_failure (st : State) (env : PassEnv)
    (h : env.fin_ok = false ∨ env.fout_ok = false ∨ env.urandom = none) :
    (main_reload st env).status = Status.exited 1 ∧
    hooks (main_reload st env).trace = [Hook.error] ∧
    (∃ before, (main_reload st env).trace =
      before ++ try_system Hook.error env.cfg.error_cmd) ∧
    (main_reload st env).state.iv = st.iv ∧
    (main_reload st env).state.key = st.key ∧
    (main_reload st env).state.bound_key = st.bound_key ∧
    (main_reload st env).state.bound_iv = st.bound_iv ∧
    iv_reads (main_reload st env).trace = 0 ∧
    key_touched (main_reload st env).trace = false ∧
    set_cryptos (main_reload st env).trace = [] := by
  obtain ⟨o1, o2, o3, o4, o5, b, o6⟩ := open_streams_fail env h
  have hsplit : open_streams env = ((open_streams env).1, none) := by
    rw [← o1]
  have hmr : main_reload st env =
      { status := Status.exited 1, state := { st with old := some st.cur, cur := env.cfg },
        trace := ([Event.log .LOG_NOTICE "Reloading config"] ++
          (if st.cur.log_file ≠ env.cfg.log_file then
            [Event.destroy_logger, Event.create_logger env.cfg.log_file] else [])) ++
          (open_streams env).1 } := by
    unfold main_reload
    rw [hsplit]
  rw [hmr]
  refine ⟨rfl, ?_, ?_, rfl, rfl, rfl, rfl, ?_, ?_, ?_⟩
  · simp only [hooks_append, o2]
    split_ifs <;> simp [hooks, Event.hook?]
  · show ∃ before, _ ++ (open_streams env).1 = before ++ _
    rw [o6, ← List.append_assoc]
    exact ⟨_, rfl⟩
  · simp only [iv_reads_append, o3]
    split_ifs <;> simp [iv_reads]
  · simp only [key_touched_append, o5]
    split_ifs <;> simp [key_touched]
  · simp only [set_cryptos_append, o4]
    split_ifs <;> simp [set_cryptos]

/-- Witness for C9: the destination stream does not reopen. -/
theorem reload_open_failure_witness :
    (env_no_output.fin_ok = false ∨ env_no_output.fout_ok = false ∨
      env_no_output.urandom = none) ∧
    (main_reload st_iv_aa env_no_output).status = Status.exited 1 ∧
    hooks (main_reload st_iv_aa env_no_output).trace = [Hook.error] ∧
    set_cryptos (main_reload st_iv_aa env_no_output).trace = [] :=
  have h := reload_open_failure st_iv_aa env_no_output (Or.inr (Or.inl rfl))
  ⟨Or.inr (Or.inl rfl), h.1, h.2.1, h.2.2.2.2.2.2.2.2.2⟩

/-- C3, refuted as stated: two reload passes that read the same bytes (4 bytes
from the random source, 16 from the key file) bind different IVs when the IV
buffers held different bytes before; the last 12 bytes of the IV bound are
those of the previous IV. -/
theorem reload_short_iv_keeps_previous_bytes :
    (main_reload st_iv_aa env_short_reads).status = Status.running ∧
    (main_reload st_iv_aa env_short_reads).state.bound_iv ≠
      (main_reload st_iv_55 env_short_reads).state.bound_iv ∧
    (main_reload st_iv_aa env_short_reads).state.bound_iv =
      [1, 2, 3, 4] ++ st_iv_aa.iv.drop 4 := by
  decide

/-- C3, amended: after a reload pass in which the three streams reopen, the
one `freedv_set_crypto` call binds the key buffer and the IV buffer; the key
is the bytes read from the key file followed by zeros up to 32 bytes, whatever
the key was before; the IV is the bytes read from the random source followed
by the bytes the IV buffer held beyond them.  Two such passes that read the
same bytes bind the same key, and bind the same IV when the random source
delivered all 16 bytes. -/
theorem reload_binds_read_material (st1 st2 : State) (env : PassEnv) (stream : List Byte)
    (hin : env.fin_ok = true) (hout : env.fout_ok = true) (hrand : env.urandom = some stream)
    (hiv1 : st1.iv.length = 16) (hiv2 : st2.iv.length = 16) :
    set_cryptos (main_reload st1 env).trace =
      [(some (main_reload st1 env).state.bound_key, (main_reload st1 env).state.bound_iv)] ∧
    (main_reload st1 env).state.bound_key =
      env.key_src.take 32 ++ List.replicate (32 - (env.key_src.take 32).length) 0 ∧
    (main_reload st1 env).state.bound_iv =
      stream.take 16 ++ st1.iv.drop (stream.take 16).length ∧
    (main_reload st1 env).state.bound_key = (main_reload st2 env).state.bound_key ∧
    (16 ≤ stream.length →
      (main_reload st1 env).state.bound_iv = stream.take 16 ∧
      (main_reload st1 env).state.bound_iv = (main_reload st2 env).state.bound_iv) := by
  obtain ⟨-, a2, a3, a4, a5, a6, -⟩ := main_reload_ok st1 env stream hin hout hrand
  obtain ⟨-, b2, b3, b4, b5, -, -⟩ := main_reload_ok st2 env stream hin hout hrand
  have full : 16 ≤ stream.length → ∀ iv : List Byte, iv.length = 16 →
      stream.take 16 ++ iv.drop (stream.take 16).length = stream.take 16 := by
    intro h iv hiv
    rw [List.length_take, Nat.min_eq_left h, List.drop_eq_nil_of_le (le_of_eq hiv),
      List.append_nil]
  refine ⟨?_, ?_, ?_, ?_, fun h => ?_⟩
  · rw [a5, a4]; exact a6
  · rw [a5]; exact a3
  · rw [a4]; exact a2
  · rw [a5, b5, a3, b3]
  · rw [a4, b4, a2, b2, full h _ hiv1, full h _ hiv2]
    exact ⟨rfl, rfl⟩

/-- Witness for the amended C3: the reload that reads 4 IV bytes and 16 key
bytes. -/
theorem reload_binds_read_material_witness :
    env_short_reads.fin_ok = true ∧ env_short_reads.fout_ok = true ∧
    env_short_reads.urandom = some [1, 2, 3, 4] ∧
    st_iv_aa.iv.length = 16 ∧ st_iv_55.iv.length = 16 ∧
    (main_reload st_iv_aa env_short_reads).state.bound_key =
      (main_reload st_iv_55 env_short_reads).state.bound_key ∧
    (main_reload st_iv_aa env_short_reads).state.bound_iv =
      List.take 16 [1, 2, 3, 4] ++ st_iv_aa.iv.drop (List.take 16 [1, 2, 3, 4]).length :=
  have h := reload_binds_read_material st_iv_aa st_iv_55 env_short_reads [1, 2, 3, 4]
    rfl rfl rfl (by decide) (by decide)
  ⟨rfl, rfl, rfl, by decide, by decide, h.2.2.2.1, h.2.2.1⟩

/-- C4: in a startup pass (with a codec handle) and in a reload pass in which
the three streams open, the error hook is requested exactly once when the
random source delivered fewer than 16 bytes, or the key file fewer than 32, or
both, and not at all when both reads were complete; in each case the pass ends
with the process running and with one `freedv_set_crypto` call, the startup
pass requesting the ready hook after it, and the loop iteration that ran the
reload leaves the process running. -/
theorem crypto_warn_hook_once (argc : Nat) (st : State) (env : PassEnv)
    (iv0 stream : List Byte) (hargc : 2 ≤ argc)
    (hin : env.fin_ok = true) (hout : env.fout_ok = true) (hrand : env.urandom = some stream) :
    ((main_startup argc env iv0 true).status = Status.running ∧
      hooks (main_startup argc env iv0 true).trace =
        (if stream.length < 16 ∨ env.key_src.length < 32 then [Hook.error] else []) ++
          [Hook.ready] ∧
      (hooks (main_startup argc env iv0 true).trace).count Hook.error =
        (if stream.length < 16 ∨ env.key_src.length < 32 then 1 else 0) ∧
      (set_cryptos (main_startup argc env iv0 true).trace).length = 1) ∧
    ((main_reload st env).status = Status.running ∧
      hooks (main_reload st env).trace =
        (if stream.length < 16 ∨ env.key_src.length < 32 then [Hook.error] else []) ∧
      (hooks (main_reload st env).trace).count Hook.error =
        (if stream.length < 16 ∨ env.key_src.length < 32 then 1 else 0) ∧
      (set_cryptos (main_reload st env).trace).length = 1 ∧
      (∀ speech_in, (main_iteration st speech_in (some env)).status = Status.running)) := by
  obtain ⟨s1, -, -, -, -, s6, s7⟩ := main_startup_ok argc env iv0 stream hargc hin hout hrand
  obtain ⟨r1, -, -, -, -, r6, r7⟩ := main_reload_ok st env stream hin hout hrand
  refine ⟨⟨s1, s7, ?_, ?_⟩, ⟨r1, r7, ?_, ?_, ?_⟩⟩
  · rw [s7]; split_ifs <;> decide
  · rw [s6]; rfl
  · rw [r7]; split_ifs <;> decide
  · rw [r6]; rfl
  · intro speech_in
    exact (main_reload_ok (main_frame st speech_in).1 env stream hin hout hrand).1

/-- Witness for C4: a pass with a short IV read and a truncated key. -/
theorem crypto_warn_hook_once_witness :
    (2 ≤ 2) ∧ env_short_reads.fin_ok = true ∧ env_short_reads.fout_ok = true ∧
    env_short_reads.urandom = some [1, 2, 3, 4] ∧
    hooks (main_startup 2 env_short_reads (List.replicate 16 0) true).trace =
      (if [1, 2, 3, 4].length < 16 ∨ env_short_reads.key_src.length < 32
        then [Hook.error] else []) ++ [Hook.ready] ∧
    (main_reload st_iv_aa env_short_reads).status = Status.running :=
  have h := crypto_warn_hook_once 2 st_iv_aa env_short_reads (List.replicate 16 0)
    [1, 2, 3, 4] (by decide) rfl rfl rfl
  ⟨by decide, rfl, rfl, rfl, h.1.2.1, h.2.1⟩

/-- C5: when the key file yields `n < 32` bytes at startup (the three streams
open and the codec handle is there), the process is running after the pass and
the one `freedv_set_crypto` call binds a 32-byte key made of the `n` bytes read
followed by `32 - n` zero bytes. -/
theorem startup_truncated_key (argc : Nat) (env : PassEnv) (iv0 stream : List Byte)
    (hargc : 2 ≤ argc)
    (hin : env.fin_ok = true) (hout : env.fout_ok = true) (hrand : env.urandom = some stream)
    (hn : env.key_src.length < 32) :
    (main_startup argc env iv0 true).status = Status.running ∧
    (main_startup argc env iv0 true).state.bound_key =
      env.key_src ++ List.replicate (32 - env.key_src.length) 0 ∧
    (main_startup argc env iv0 true).state.bound_key.length = 32 ∧
    set_cryptos (main_startup argc env iv0 true).trace =
      [(some (env.key_src ++ List.replicate (32 - env.key_src.length) 0),
        (main_startup argc env iv0 true).state.iv)] := by
  obtain ⟨s1, -, s3, -, s5, s6, -⟩ := main_startup_ok argc env iv0 stream hargc hin hout hrand
  have ht : env.key_src.take 32 = env.key_src := List.take_of_length_le (le_of_lt hn)
  rw [ht] at s3
  refine ⟨s1, ?_, ?_, ?_⟩
  · rw [s5, s3]
  · rw [s5, s3, List.length_append, List.length_replicate]; omega
  · rw [s6, s3]

/-- Witness for C5: the key file yields 16 bytes, bound as those 16 bytes
followed by 16 zero bytes. -/
theorem startup_truncated_key_witness :
    (2 ≤ 2) ∧ env_short_reads.fin_ok = true ∧ env_short_reads.fout_ok = true ∧
    env_short_reads.urandom = some [1, 2, 3, 4] ∧ env_short_reads.key_src.length < 32 ∧
    (main_startup 2 env_short_reads (List.replicate 16 0) true).status = Status.running ∧
    (main_startup 2 env_short_reads (List.replicate 16 0) true).state.bound_key =
      env_short_reads.key_src ++ List.replicate (32 - env_short_reads.key_src.length) 0 :=
  have h := startup_truncated_key 2 env_short_reads (List.replicate 16 0) [1, 2, 3, 4]
    (by decide) rfl rfl rfl (by decide)
  ⟨by decide, rfl, rfl, rfl, by decide, h.1, h.2.1⟩

end CryptoTx
